import Mathlib

/-!
Verification development for the duplicate-file detector
(`duplicate_file_detector.py`).

The program is embedded shallowly:
* `hashlib.sha256` is modelled by an executable SHA-256 (FIPS 180-4) over
  byte lists, with machine words as `Nat` reduced modulo `2^32`;
* the operating-system surface (`os.walk`, `os.path.isdir`, `open`/read,
  `os.path.getsize`) is modelled by an explicit `FS` record; a read or stat
  that would raise an exception is modelled by `none`;
* Python's `dict` (insertion ordered) is an association list
  `List (String × List String)`;
* `format_size` carries its running value as the exact fraction
  `bytes / 1024 ^ k` (the inputs are integers and each loop step divides by
  `1024`), and `f"{x:.2f}"` is modelled by round-half-even at two decimals.
-/

namespace DupDetector

/-! ## SHA-256 (model of `hashlib.sha256(...).hexdigest()`) -/

/-- Reduce to a 32-bit word. -/
def w32 (n : Nat) : Nat := n % 4294967296

/-- Reduce to a byte. -/
def w8 (n : Nat) : Nat := n % 256

/-- Rotate a 32-bit word right by `n`: the low `n` bits wrap to the top. -/
def rot32 (x n : Nat) : Nat := (x / 2 ^ n + x * 2 ^ (32 - n)) % 2 ^ 32

def sigB0 (x : Nat) : Nat := rot32 x 2 ^^^ rot32 x 13 ^^^ rot32 x 22

def sigB1 (x : Nat) : Nat := rot32 x 6 ^^^ rot32 x 11 ^^^ rot32 x 25

def sigS0 (x : Nat) : Nat := rot32 x 7 ^^^ rot32 x 18 ^^^ x / 8

def sigS1 (x : Nat) : Nat := rot32 x 17 ^^^ rot32 x 19 ^^^ x / 1024

def chF (e f g : Nat) : Nat := (e &&& f) ^^^ ((e ^^^ 4294967295) &&& g)

def majF (a b c : Nat) : Nat := (a &&& b) ^^^ (a &&& c) ^^^ (b &&& c)

/-- The eight working registers of the SHA-256 compression function. -/
structure Hash8 where
  a : Nat
  b : Nat
  c : Nat
  d : Nat
  e : Nat
  f : Nat
  g : Nat
  hh : Nat

/-- The initial hash value of FIPS 180-4 §5.3.3 (decimal). -/
def initH : Hash8 :=
  ⟨1779033703, 3144134277, 1013904242, 2773480762,
   1359893119, 2600822924, 528734635, 1541459225⟩

/-- The 64 round constants of FIPS 180-4 §4.2.2 (decimal). -/
def K256 : List Nat :=
  [1116352408, 1899447441, 3049323471, 3921009573, 961987163,
   1508970993, 2453635748, 2870763221, 3624381080, 310598401,
   607225278, 1426881987, 1925078388, 2162078206, 2614888103,
   3248222580, 3835390401, 4022224774, 264347078, 604807628,
   770255983, 1249150122, 1555081692, 1996064986, 2554220882,
   2821834349, 2952996808, 3210313671, 3336571891, 3584528711,
   113926993, 338241895, 666307205, 773529912, 1294757372,
   1396182291, 1695183700, 1986661051, 2177026350, 2456956037,
   2730485921, 2820302411, 3259730800, 3345764771, 3516065817,
   3600352804, 4094571909, 275423344, 430227734, 506948616,
   659060556, 883997877, 958139571, 1322822218, 1537002063,
   1747873779, 1955562222, 2024104815, 2227730452, 2361852424,
   2428436474, 2756734187, 3204031479, 3329325298]

/-- One round of the compression function, consuming a `(key, scheduled word)` pair. -/
def sha256round (s : Hash8) (kw : Nat × Nat) : Hash8 :=
  let T1 := w32 (s.hh + sigB1 s.e + chF s.e s.f s.g + kw.1 + kw.2)
  let T2 := w32 (sigB0 s.a + majF s.a s.b s.c)
  ⟨w32 (T1 + T2), s.a, s.b, s.c, w32 (s.d + T1), s.e, s.f, s.g⟩

def add8 (x y : Hash8) : Hash8 :=
  ⟨w32 (x.a + y.a), w32 (x.b + y.b), w32 (x.c + y.c), w32 (x.d + y.d),
   w32 (x.e + y.e), w32 (x.f + y.f), w32 (x.g + y.g), w32 (x.hh + y.hh)⟩

/-- Extend the 16-word message block by `n` further scheduled words. -/
def extendW : List Nat → Nat → List Nat
  | ws, 0 => ws
  | ws, n + 1 =>
      let i := ws.length
      let w := w32 (sigS1 (ws.getD (i - 2) 0) + ws.getD (i - 7) 0 +
                    sigS0 (ws.getD (i - 15) 0) + ws.getD (i - 16) 0)
      extendW (ws ++ [w]) n

/-- Compress one 16-word block into the running hash state. -/
def compressBlock (H : Hash8) (block : List Nat) : Hash8 :=
  add8 H ((K256.zip (extendW block 48)).foldl sha256round H)

/-- Split a list into consecutive chunks of size `k`, with explicit fuel. -/
def chunkExact (k : Nat) : Nat → List Nat → List (List Nat)
  | 0, _ => []
  | _, [] => []
  | fuel + 1, l => l.take k :: chunkExact k fuel (l.drop k)

def chunksOf (k : Nat) (l : List Nat) : List (List Nat) := chunkExact k l.length l

/-- Big-endian 8-byte encoding of `n`. -/
def be64 (n : Nat) : List Nat :=
  [w8 (n >>> 56), w8 (n >>> 48), w8 (n >>> 40), w8 (n >>> 32),
   w8 (n >>> 24), w8 (n >>> 16), w8 (n >>> 8), w8 n]

/-- SHA-256 padding: a `0x80` byte, zeros to 56 mod 64, then the bit length. -/
def padMsg (m : List Nat) : List Nat :=
  m ++ [128] ++ List.replicate ((119 - m.length % 64) % 64) 0 ++ be64 (8 * m.length)

/-- Big-endian 32-bit word from (up to) four bytes. -/
def wordOf (b : List Nat) : Nat :=
  b.getD 0 0 * 16777216 + b.getD 1 0 * 65536 + b.getD 2 0 * 256 + b.getD 3 0

def bytesToWords (l : List Nat) : List Nat := (chunksOf 4 l).map wordOf

/-- The eight 32-bit words of the SHA-256 digest of a byte string. -/
def sha256words (msg : List Nat) : List Nat :=
  let final := (chunksOf 64 (padMsg msg)).foldl
    (fun H b => compressBlock H (bytesToWords b)) initH
  [final.a, final.b, final.c, final.d, final.e, final.f, final.g, final.hh]

/-- The sixteen characters of a lowercase hexadecimal digit. -/
def hexChars : List Char := "0123456789abcdef".data

def hexDigit (n : Nat) : Char := hexChars.getD (n % 16) '0'

def wordHexChars (w : Nat) : List Char :=
  [hexDigit (w >>> 28), hexDigit (w >>> 24), hexDigit (w >>> 20), hexDigit (w >>> 16),
   hexDigit (w >>> 12), hexDigit (w >>> 8), hexDigit (w >>> 4), hexDigit w]

/-- Model of `hashlib.sha256(data).hexdigest()`: lowercase hex digest. -/
def sha256hex (msg : List Nat) : String :=
  String.mk ((sha256words msg).flatMap wordHexChars)

/-! ## The operating-system surface

`FS` models the parts of the OS the program touches.  `walk base` models
`os.walk(base)`: a list of `(dirpath, dirnames, filenames)` triples.
`readFile` models opening and reading a file to the end: `none` models any
raised exception (permission denied, vanished file, I/O error).  `getSize`
models `os.path.getsize`, again with `none` for a raised exception.
`isDir` models `os.path.isdir`. -/

structure FS where
  isDir : String → Bool
  walk : String → List (String × List String × List String)
  readFile : String → Option (List Nat)
  getSize : String → Option Nat

/-- Model of `os.path.join(d, f)` for POSIX paths as the program uses it:
insert a separator unless the directory part already ends in one. -/
def joinPath (d f : String) : String :=
  if d.data.getLast? = some '/' then d ++ f else d ++ "/" ++ f

/-- Model of `compute_file_hash`: read the whole file and hash it; any
read failure is caught and turned into `None`.  Chunked reading folded into
the incremental hash equals hashing the concatenation of the chunks. -/
def compute_file_hash (fs : FS) (path : String) : Option String :=
  (fs.readFile path).map sha256hex

/-- The full paths enumerated by the `os.walk` loop of `find_duplicate_files`. -/
def walkFiles (fs : FS) (base : String) : List String :=
  (fs.walk base).flatMap (fun t => t.2.2.map (fun fn => joinPath t.1 fn))

/-- Append `p` to the group of key `h` in an insertion-ordered association
list, adding the key at the end if absent: model of `defaultdict(list)`
indexing followed by `append`. -/
def addToGroups (acc : List (String × List String)) (h : String) (p : String) :
    List (String × List String) :=
  match acc with
  | [] => [(h, [p])]
  | (k, ps) :: rest =>
      if k = h then (k, ps ++ [p]) :: rest else (k, ps) :: addToGroups rest h p

/-- One iteration of the accumulation loop of `find_duplicate_files`:
the `if file_hash:` truthiness test skips both `None` and the empty string. -/
def hashStep (fs : FS) (acc : List (String × List String)) (p : String) :
    List (String × List String) :=
  match compute_file_hash fs p with
  | some h => if h = "" then acc else addToGroups acc h p
  | none => acc

/-- Model of `find_duplicate_files`: hash every enumerated file, group the
paths by digest in first-seen order, then keep the groups with more than
one member. -/
def find_duplicate_files (fs : FS) (base : String) : List (String × List String) :=
  ((walkFiles fs base).foldl (hashStep fs) []).filter (fun g => 1 < g.2.length)

/-- Model of `calculate_reclaimable_space`: for each group sum the sizes of
all paths but the first; a failing size query is caught and contributes
nothing. -/
def calculate_reclaimable_space (fs : FS) (duplicates : List (String × List String)) : Nat :=
  duplicates.foldl
    (fun space g =>
      (g.2.drop 1).foldl
        (fun s p =>
          match fs.getSize p with
          | some n => s + n
          | none => s) space)
    0

/-- The rows `save_results_to_csv` writes: the header, then one row per
`(digest, path)` pair, groups in mapping order, paths in group order. -/
def csvRows (duplicates : List (String × List String)) : List (List String) :=
  ["Hash", "Ruta de archivo duplicado"] ::
    duplicates.flatMap (fun g => g.2.map (fun p => [g.1, p]))

def default_csv_filename : String := "duplicados.csv"

/-- Model of `save_results_to_csv` acting on a store of named files: mode
`w` truncates and recreates, so the named file afterwards holds exactly
`csvRows duplicates` whatever it held before. -/
def save_results_to_csv (store : String → Option (List (List String)))
    (duplicates : List (String × List String)) (filename : String) :
    String → Option (List (List String)) :=
  fun n => if n = filename then some (csvRows duplicates) else store n

/-! ## `format_size`

The program always calls `format_size` on an integer byte count, and the
loop only ever divides the running value by `1024`, so the running value is
exactly the fraction `bytes / 1024 ^ k`.  The model carries that fraction as
a numerator and a (positive, power-of-1024) denominator, which keeps every
comparison and the final half-to-even rounding of `f"{v:.2f}"` exact.
(Python's floats are exact here too: every value reaching the formatter has
a numerator below `2 ^ 53`.) -/

/-- Round `num / den` to the nearest integer, ties to even: the rounding
applied by fixed-point `printf`-style formatting to an exactly
representable value. -/
def roundHalfEvenFrac (num den : Nat) : Nat :=
  let n := num / den
  let r2 := 2 * (num % den)
  if r2 < den then n
  else if den < r2 then n + 1
  else if n % 2 = 0 then n else n + 1

/-- Render a hundredth count as a decimal numeral with two fractional digits. -/
def natTwoDec (n : Nat) : String :=
  toString (n / 100) ++ "." ++
    (if n % 100 < 10 then "0" ++ toString (n % 100) else toString (n % 100))

/-- Model of `f"{v:.2f}"` for the exact value `num / den`. -/
def formatTwoDecimalsFrac (num den : Nat) : String :=
  natTwoDec (roundHalfEvenFrac (num * 100) den)

/-- The unit list of `format_size`. -/
def format_units : List String := ["B", "KB", "MB", "GB", "TB"]

/-- The `for unit in [...]` loop of `format_size` carrying the running
value as the exact fraction `b / den`: return at the first unit whose
scaled value is below `1024`, otherwise divide by `1024` (that is, scale
the denominator) and continue; falling off the end of the loop returns
`None`. -/
def format_size_go : Nat → Nat → List String → Option String
  | _, _, [] => none
  | b, den, u :: us =>
      if b < 1024 * den then some (formatTwoDecimalsFrac b den ++ " " ++ u)
      else format_size_go b (den * 1024) us

/-- Model of `format_size` on an integer byte count. -/
def format_size (bytes : Nat) : Option String := format_size_go bytes 1 format_units

/-! ## `main` -/

/-- The observable effects of one run of `main`, in program order. -/
inductive Event where
  | printMsg (s : String)
  | walkDir (path : String)
  | writeFile (name : String) (rows : List (List String))
  deriving DecidableEq

/-- How Python interpolates the value returned by `format_size` into an
f-string: a string stands for itself, `None` prints as `None`. -/
def pyShow : Option String → String
  | some s => s
  | none => "None"

/-- Total duplicate count as `main` computes it. -/
def total_duplicates (duplicates : List (String × List String)) : Nat :=
  (duplicates.map (fun g => g.2.length - 1)).sum

/-- Model of Python's `str.strip()`: drop leading and trailing whitespace. -/
def pyStrip (s : String) : String :=
  String.mk (((s.data.dropWhile Char.isWhitespace).reverse.dropWhile
    Char.isWhitespace).reverse)

/-- Model of `main`: the user's input is stripped and validated with
`os.path.isdir`; on failure only the error message is printed, on success
the tree is walked, grouped, measured and exported. -/
def main (fs : FS) (input : String) : List Event :=
  let directory := pyStrip input
  if fs.isDir directory = false then [Event.printMsg "Ruta no válida."]
  else
    let duplicates := find_duplicate_files fs directory
    [Event.printMsg "Analizando archivos...",
     Event.walkDir directory,
     Event.writeFile default_csv_filename (csvRows duplicates),
     Event.printMsg "✅ Análisis completado.",
     Event.printMsg ("Ficheros duplicados encontrados: " ++
       toString (total_duplicates duplicates)),
     Event.printMsg ("Espacio potencialmente liberable: " ++
       pyShow (format_size (calculate_reclaimable_space fs duplicates))),
     Event.printMsg "Resultado exportado a \x27duplicados.csv\x27."]

/-! ## Characterization of the grouping pass -/

/-- First-match lookup in the association list of groups. -/
def lookupGroup : List (String × List String) → String → List String
  | [], _ => []
  | (k, ps) :: rest, h => if k = h then ps else lookupGroup rest h

def keysOf (acc : List (String × List String)) : List String := acc.map Prod.fst

/-- The digest under which `find_duplicate_files` files a path, if any:
`None` collapses failed hashes and the (unreachable) empty digest of the
`if file_hash:` truthiness test. -/
def hashTruthy (fs : FS) (p : String) : Option String :=
  match compute_file_hash fs p with
  | some h => if h = "" then none else some h
  | none => none

/-- The enumerated paths filed under digest `h`, in enumeration order. -/
def specGroup (fs : FS) (base : String) (h : String) : List String :=
  (walkFiles fs base).filter (fun p => hashTruthy fs p == some h)

/-! ## Spec-side formulations (from the specification text, for refinement) -/

/-- Modelled from the spec: the reclaimable space is the sum over all
groups of the sizes of all members except the first, a failed size query
contributing zero. -/
def spec_reclaimable (fs : FS) (duplicates : List (String × List String)) : Nat :=
  (duplicates.map
    (fun g => ((g.2.drop 1).map (fun p => (fs.getSize p).getD 0)).sum)).sum

/-- Modelled from the spec: scale through B, KB, MB, GB, TB by factors of
`1024`, stopping at the first unit for which the scaled value is below
`1024`, rendered with two decimal places. -/
def spec_format_size (b : Nat) : Option String :=
  if b < 1024 then some (formatTwoDecimalsFrac b 1 ++ " B")
  else if b < 1024 ^ 2 then some (formatTwoDecimalsFrac b 1024 ++ " KB")
  else if b < 1024 ^ 3 then some (formatTwoDecimalsFrac b (1024 ^ 2) ++ " MB")
  else if b < 1024 ^ 4 then some (formatTwoDecimalsFrac b (1024 ^ 3) ++ " GB")
  else if b < 1024 ^ 5 then some (formatTwoDecimalsFrac b (1024 ^ 4) ++ " TB")
  else none

/-! ## Concrete file systems instantiating the theorems -/

def isDirT : String → Bool := fun p => p = "/r"

def walkT : String → List (String × List String × List String) :=
  fun p => if p = "/r" then [("/r", [], ["a", "b", "c", "d"])] else []

def walkT2 : String → List (String × List String × List String) :=
  fun p => if p = "/r" then [("/r", [], ["d", "c", "b", "a"])] else []

def readFileT : String → Option (List Nat) :=
  fun p =>
    if p = "/r/a" then some [65] else
    if p = "/r/b" then some [65] else
    if p = "/r/c" then some [66] else none

def getSizeT : String → Option Nat :=
  fun p =>
    if p = "/r/a" then some 5 else
    if p = "/r/b" then some 5 else
    if p = "/r/c" then some 7 else none

/-- A small tree: two identical files `a`, `b`, a different file `c`, and
an unreadable file `d`. -/
def fsT : FS := ⟨isDirT, walkT, readFileT, getSizeT⟩

/-- The same tree as `fsT` enumerated in the opposite order. -/
def fsT2 : FS := ⟨isDirT, walkT2, readFileT, getSizeT⟩

/-- A file system on which every path is invalid. -/
def fsEmpty : FS := ⟨fun _ => false, fun _ => [], fun _ => none, fun _ => none⟩

/-- A concrete duplicates mapping over `fsT`. -/
def dupsW : List (String × List String) := [("k", ["/r/a", "/r/b"])]

theorem hashStep_eq (fs : FS) (acc : List (String × List String)) (p : String) :
    hashStep fs acc p =
      match hashTruthy fs p with
      | some h => addToGroups acc h p
      | none => acc := by
  unfold hashStep hashTruthy
  cases compute_file_hash fs p with
  | none => rfl
  | some h =>
      by_cases hh : h = "" <;> simp [hh]

theorem lookupGroup_addToGroups (acc : List (String × List String))
    (h p h' : String) :
    lookupGroup (addToGroups acc h p) h' =
      if h' = h then lookupGroup acc h' ++ [p] else lookupGroup acc h' := by
  induction acc with
  | nil =>
      by_cases e : h' = h
      · subst e
        simp [addToGroups, lookupGroup]
      · have e' : ¬h = h' := fun hc => e hc.symm
        simp [addToGroups, lookupGroup, e, e']
  | cons kv rest ih =>
      obtain ⟨k, ps⟩ := kv
      by_cases e1 : k = h
      · subst e1
        by_cases e2 : h' = k
        · subst e2
          simp [addToGroups, lookupGroup]
        · have e2' : ¬k = h' := fun hc => e2 hc.symm
          simp [addToGroups, lookupGroup, e2, e2']
      · by_cases e2 : k = h'
        · subst e2
          have e3 : ¬k = h := e1
          have e3' : ¬h = k := fun hc => e1 hc.symm
          simp [addToGroups, lookupGroup, e3, e3']
        · simp only [addToGroups, if_neg e1, lookupGroup, if_neg e2, ih]

theorem lookupGroup_foldl (fs : FS) (L : List String)
    (acc : List (String × List String)) (h : String) :
    lookupGroup (L.foldl (hashStep fs) acc) h =
      lookupGroup acc h ++ L.filter (fun p => hashTruthy fs p == some h) := by
  induction L generalizing acc with
  | nil => simp
  | cons p L ih =>
      rw [List.foldl_cons, ih, hashStep_eq]
      cases hp : hashTruthy fs p with
      | none => simp [List.filter_cons, hp]
      | some h0 =>
          rw [lookupGroup_addToGroups]
          by_cases e : h = h0
          · subst e
            simp [List.filter_cons, hp]
          · simp [List.filter_cons, hp, e, Ne.symm e]

theorem keysOf_addToGroups (acc : List (String × List String)) (h p : String) :
    keysOf (addToGroups acc h p) =
      if h ∈ keysOf acc then keysOf acc else keysOf acc ++ [h] := by
  induction acc with
  | nil => simp [addToGroups, keysOf]
  | cons kv rest ih =>
      obtain ⟨k, ps⟩ := kv
      have hkeys : keysOf ((k, ps) :: rest) = k :: keysOf rest := by
        simp [keysOf]
      by_cases e1 : k = h
      · subst e1
        have hstep : addToGroups ((k, ps) :: rest) k p = (k, ps ++ [p]) :: rest := by
          simp [addToGroups]
        rw [hstep, hkeys, if_pos (List.mem_cons_self k (keysOf rest))]
        simp [keysOf]
      · have e1' : ¬h = k := fun hc => e1 hc.symm
        have hstep : addToGroups ((k, ps) :: rest) h p
            = (k, ps) :: addToGroups rest h p := by
          simp [addToGroups, e1]
        have hk2 : keysOf ((k, ps) :: addToGroups rest h p)
            = k :: keysOf (addToGroups rest h p) := by
          simp [keysOf]
        rw [hstep, hkeys, hk2, ih]
        by_cases e2 : h ∈ keysOf rest
        · rw [if_pos e2, if_pos (List.mem_cons_of_mem k e2)]
        · have hnotin : h ∉ k :: keysOf rest := by
            intro hc
            rcases List.mem_cons.1 hc with hc1 | hc2
            · exact e1' hc1
            · exact e2 hc2
          rw [if_neg e2, if_neg hnotin]
          simp

theorem nodup_keysOf_addToGroups (acc : List (String × List String))
    (h p : String) (hnd : (keysOf acc).Nodup) :
    (keysOf (addToGroups acc h p)).Nodup := by
  rw [keysOf_addToGroups]
  by_cases e : h ∈ keysOf acc
  · rw [if_pos e]
    exact hnd
  · rw [if_neg e]
    rw [List.nodup_append]
    refine ⟨hnd, List.nodup_singleton h, ?_⟩
    intro a ha hb
    rw [List.mem_singleton] at hb
    subst hb
    exact e ha

theorem nodup_keysOf_foldl (fs : FS) (L : List String)
    (acc : List (String × List String)) (hnd : (keysOf acc).Nodup) :
    (keysOf (L.foldl (hashStep fs) acc)).Nodup := by
  induction L generalizing acc with
  | nil => simpa using hnd
  | cons p L ih =>
      rw [List.foldl_cons, hashStep_eq]
      cases hp : hashTruthy fs p with
      | none => exact ih acc hnd
      | some h0 => exact ih _ (nodup_keysOf_addToGroups acc h0 p hnd)

theorem lookupGroup_of_mem :
    ∀ (acc : List (String × List String)) (h : String) (ps : List String),
      (keysOf acc).Nodup → (h, ps) ∈ acc → lookupGroup acc h = ps := by
  intro acc
  induction acc with
  | nil =>
      intro h ps _ hm
      cases hm
  | cons kv rest ih =>
      obtain ⟨k, qs⟩ := kv
      intro h ps hnd hm
      have hnd1 : (k :: keysOf rest).Nodup := by simpa [keysOf] using hnd
      rcases List.mem_cons.1 hm with heq | htl
      · injection heq with h1 h2
        subst h1
        subst h2
        simp [lookupGroup]
      · have hk : ¬k = h := by
          intro e
          apply (List.nodup_cons.1 hnd1).1
          rw [e]
          have hfst : (h, ps).1 ∈ keysOf rest := List.mem_map_of_mem Prod.fst htl
          simpa [keysOf] using hfst
        simp [lookupGroup, hk, ih h ps (List.nodup_cons.1 hnd1).2 htl]

theorem mem_of_lookupGroup_ne (acc : List (String × List String)) (h : String)
    (hne : lookupGroup acc h ≠ []) : (h, lookupGroup acc h) ∈ acc := by
  induction acc with
  | nil => simp [lookupGroup] at hne
  | cons kv rest ih =>
      obtain ⟨k, qs⟩ := kv
      by_cases e : k = h
      · subst e
        simp [lookupGroup]
      · simp only [lookupGroup, e, if_false] at hne ⊢
        exact List.mem_cons_of_mem _ (ih hne)

/-- The central characterization: a pair belongs to the result of
`find_duplicate_files` exactly when its member list is the (enumeration
ordered) list of paths hashing to its key, and that list has at least two
entries. -/
theorem mem_find_duplicate_files_iff (fs : FS) (base : String)
    (g : String × List String) :
    g ∈ find_duplicate_files fs base ↔
      g.2 = specGroup fs base g.1 ∧ 1 < g.2.length := by
  unfold find_duplicate_files
  rw [List.mem_filter]
  have hlook : lookupGroup ((walkFiles fs base).foldl (hashStep fs) []) g.1 =
      specGroup fs base g.1 := by
    rw [lookupGroup_foldl]
    simp [lookupGroup, specGroup]
  constructor
  · rintro ⟨hmem, hlen⟩
    have hnd : (keysOf ((walkFiles fs base).foldl (hashStep fs) [])).Nodup :=
      nodup_keysOf_foldl fs _ [] (by simp [keysOf])
    have hg : lookupGroup ((walkFiles fs base).foldl (hashStep fs) []) g.1 = g.2 :=
      lookupGroup_of_mem _ g.1 g.2 hnd (by simpa using hmem)
    exact ⟨by rw [← hg, hlook], by simpa using hlen⟩
  · rintro ⟨hspec, hlen⟩
    have hne : lookupGroup ((walkFiles fs base).foldl (hashStep fs) []) g.1 ≠ [] := by
      rw [hlook, ← hspec]
      intro hcon
      rw [hcon] at hlen
      simp at hlen
    have hmem := mem_of_lookupGroup_ne _ g.1 hne
    rw [hlook, ← hspec] at hmem
    exact ⟨by simpa using hmem, by simpa using hlen⟩

/-! ## Shape of the hex digest -/

theorem sha256words_length (msg : List Nat) : (sha256words msg).length = 8 := rfl

theorem wordHexChars_length (w : Nat) : (wordHexChars w).length = 8 := rfl

theorem hexDigit_mem (n : Nat) : hexDigit n ∈ hexChars := by
  unfold hexDigit
  generalize hm : n % 16 = m
  have hlt : m < 16 := by
    rw [← hm]
    exact Nat.mod_lt _ (by norm_num)
  interval_cases m <;> decide

theorem length_flatMap_wordHexChars (l : List Nat) :
    (l.flatMap wordHexChars).length = 8 * l.length := by
  induction l with
  | nil => simp
  | cons w l ih =>
      rw [List.flatMap_cons, List.length_append, ih, wordHexChars_length,
        List.length_cons]
      ring

theorem sha256hex_length (msg : List Nat) : (sha256hex msg).length = 64 := by
  have hmk : (sha256hex msg).length = ((sha256words msg).flatMap wordHexChars).length := rfl
  rw [hmk, length_flatMap_wordHexChars, sha256words_length]

theorem sha256hex_ne_empty (msg : List Nat) : sha256hex msg ≠ "" := by
  intro hc
  have h64 := sha256hex_length msg
  rw [hc] at h64
  exact absurd h64 (by decide)

theorem sha256hex_chars (msg : List Nat) :
    ∀ c ∈ (sha256hex msg).data, c ∈ hexChars := by
  intro c hc
  have hdata : (sha256hex msg).data = (sha256words msg).flatMap wordHexChars := rfl
  rw [hdata] at hc
  rcases List.mem_flatMap.1 hc with ⟨w, _, hcw⟩
  simp only [wordHexChars, List.mem_cons, List.not_mem_nil, or_false] at hcw
  rcases hcw with h | h | h | h | h | h | h | h <;> (subst h; exact hexDigit_mem _)

/-- The digest under which a readable file is filed. -/
theorem hashTruthy_of_read (fs : FS) (p : String) (c : List Nat)
    (hr : fs.readFile p = some c) : hashTruthy fs p = some (sha256hex c) := by
  simp [hashTruthy, compute_file_hash, hr, sha256hex_ne_empty c]

theorem hashTruthy_eq_some (fs : FS) (p h : String)
    (hh : hashTruthy fs p = some h) : compute_file_hash fs p = some h := by
  unfold hashTruthy at hh
  cases hch : compute_file_hash fs p with
  | none => rw [hch] at hh; cases hh
  | some h0 =>
      rw [hch] at hh
      by_cases he : h0 = ""
      · simp [he] at hh
      · simp [he] at hh
        rw [hh]

theorem one_lt_length_of_mem_ne {l : List String} {a b : String}
    (ha : a ∈ l) (hb : b ∈ l) (hne : a ≠ b) : 1 < l.length := by
  cases l with
  | nil => cases ha
  | cons x xs =>
      cases xs with
      | nil =>
          rw [List.mem_singleton] at ha hb
          exact absurd (ha.trans hb.symm) hne
      | cons y ys => simp [List.length_cons]

/-! ## Claims about the grouping invariants -/

/-- C9: `compute_file_hash` is total and never raises: it returns either
the 64-character lowercase-hexadecimal SHA-256 digest of the file's full
byte content or `None`, with no other outcome. -/
theorem compute_file_hash_total_spec (fs : FS) (path : String) :
    (fs.readFile path = none ∧ compute_file_hash fs path = none) ∨
    (∃ content, fs.readFile path = some content ∧
      compute_file_hash fs path = some (sha256hex content) ∧
      (sha256hex content).length = 64 ∧
      ∀ c ∈ (sha256hex content).data, c ∈ hexChars) := by
  cases hr : fs.readFile path with
  | none => exact Or.inl ⟨rfl, by simp [compute_file_hash, hr]⟩
  | some content =>
      exact Or.inr ⟨content, rfl, by simp [compute_file_hash, hr],
        sha256hex_length content, sha256hex_chars content⟩

/-- C3: in the result of `find_duplicate_files` every group has at least
two members that all hash to the group key; two distinct enumerated files
with byte-identical readable content land together in exactly one group;
and files whose digests differ never share a group. -/
theorem find_duplicate_files_invariants (fs : FS) (base : String) :
    (∀ g ∈ find_duplicate_files fs base,
        2 ≤ g.2.length ∧ ∀ p ∈ g.2, compute_file_hash fs p = some g.1) ∧
    (∀ p1 p2 c, p1 ∈ walkFiles fs base → p2 ∈ walkFiles fs base → p1 ≠ p2 →
        fs.readFile p1 = some c → fs.readFile p2 = some c →
        ∃ g ∈ find_duplicate_files fs base, p1 ∈ g.2 ∧ p2 ∈ g.2 ∧
          ∀ g' ∈ find_duplicate_files fs base,
            (p1 ∈ g'.2 ∨ p2 ∈ g'.2) → g' = g) ∧
    (∀ g ∈ find_duplicate_files fs base, ∀ p1 p2 c1 c2,
        fs.readFile p1 = some c1 → fs.readFile p2 = some c2 →
        sha256hex c1 ≠ sha256hex c2 → ¬(p1 ∈ g.2 ∧ p2 ∈ g.2)) := by
  refine ⟨?_, ?_, ?_⟩
  · intro g hg
    rw [mem_find_duplicate_files_iff] at hg
    refine ⟨by omega, ?_⟩
    intro p hp
    rw [hg.1] at hp
    have hpred := List.of_mem_filter hp
    exact hashTruthy_eq_some fs p g.1 (by simpa using hpred)
  · intro p1 p2 c hw1 hw2 hne hr1 hr2
    have hh1 : hashTruthy fs p1 = some (sha256hex c) := hashTruthy_of_read fs p1 c hr1
    have hh2 : hashTruthy fs p2 = some (sha256hex c) := hashTruthy_of_read fs p2 c hr2
    have hm1 : p1 ∈ specGroup fs base (sha256hex c) :=
      List.mem_filter.2 ⟨hw1, by simp [hh1]⟩
    have hm2 : p2 ∈ specGroup fs base (sha256hex c) :=
      List.mem_filter.2 ⟨hw2, by simp [hh2]⟩
    have hlen : 1 < (specGroup fs base (sha256hex c)).length :=
      one_lt_length_of_mem_ne hm1 hm2 hne
    refine ⟨(sha256hex c, specGroup fs base (sha256hex c)),
      (mem_find_duplicate_files_iff fs base _).2 ⟨rfl, hlen⟩, hm1, hm2, ?_⟩
    intro g' hg' hmem
    rw [mem_find_duplicate_files_iff] at hg'
    have hkey : g'.1 = sha256hex c := by
      rcases hmem with hmem | hmem
      · rw [hg'.1] at hmem
        have hpred : hashTruthy fs p1 = some g'.1 := by
          simpa using List.of_mem_filter hmem
        rw [hh1] at hpred
        exact (Option.some.inj hpred).symm
      · rw [hg'.1] at hmem
        have hpred : hashTruthy fs p2 = some g'.1 := by
          simpa using List.of_mem_filter hmem
        rw [hh2] at hpred
        exact (Option.some.inj hpred).symm
    have hval : g'.2 = specGroup fs base (sha256hex c) := by
      rw [hg'.1, hkey]
    exact Prod.ext hkey hval
  · rintro g hg p1 p2 c1 c2 hr1 hr2 hne ⟨hp1, hp2⟩
    rw [mem_find_duplicate_files_iff] at hg
    rw [hg.1] at hp1 hp2
    have h1 : hashTruthy fs p1 = some g.1 := by
      simpa using List.of_mem_filter hp1
    have h2 : hashTruthy fs p2 = some g.1 := by
      simpa using List.of_mem_filter hp2
    rw [hashTruthy_of_read fs p1 c1 hr1] at h1
    rw [hashTruthy_of_read fs p2 c2 hr2] at h2
    exact hne ((Option.some.inj h1).trans (Option.some.inj h2).symm)

/-- C7: a file whose read fails yields no digest, is excluded from every
group of the result, and the (total) run continues past it. -/
theorem unreadable_file_excluded (fs : FS) (base p : String)
    (hread : fs.readFile p = none) :
    compute_file_hash fs p = none ∧
    ∀ g ∈ find_duplicate_files fs base, p ∉ g.2 := by
  constructor
  · simp [compute_file_hash, hread]
  · intro g hg hp
    rw [mem_find_duplicate_files_iff] at hg
    rw [hg.1] at hp
    have hpred : hashTruthy fs p = some g.1 := by
      simpa using List.of_mem_filter hp
    simp [hashTruthy, compute_file_hash, hread] at hpred

/-- Membership of a path in the group of a digest, phrased on the result
mapping. -/
theorem inGroup_iff (fs : FS) (base h p : String) :
    (∃ g ∈ find_duplicate_files fs base, g.1 = h ∧ p ∈ g.2) ↔
      p ∈ specGroup fs base h ∧ 1 < (specGroup fs base h).length := by
  constructor
  · rintro ⟨g, hg, rfl, hp⟩
    rw [mem_find_duplicate_files_iff] at hg
    exact ⟨hg.1 ▸ hp, hg.1 ▸ hg.2⟩
  · rintro ⟨hp, hlen⟩
    exact ⟨(h, specGroup fs base h),
      (mem_find_duplicate_files_iff fs base _).2 ⟨rfl, hlen⟩, rfl, hp⟩

/-- C8: two runs over the same unchanged tree (same contents, possibly
different enumeration order) produce identical digest-to-path-set
groupings. -/
theorem rerun_groupings_stable (fs1 fs2 : FS) (base h p : String)
    (hread : fs1.readFile = fs2.readFile)
    (hperm : (walkFiles fs1 base).Perm (walkFiles fs2 base)) :
    (∃ g ∈ find_duplicate_files fs1 base, g.1 = h ∧ p ∈ g.2) ↔
    (∃ g ∈ find_duplicate_files fs2 base, g.1 = h ∧ p ∈ g.2) := by
  have hh : hashTruthy fs1 = hashTruthy fs2 := by
    funext q
    simp [hashTruthy, compute_file_hash, hread]
  have hpermf : (specGroup fs1 base h).Perm (specGroup fs2 base h) := by
    unfold specGroup
    rw [hh]
    exact hperm.filter _
  rw [inGroup_iff, inGroup_iff, hpermf.mem_iff, hpermf.length_eq]

/-- C10: calling `find_duplicate_files` directly on a missing or
non-directory root does not raise: given the documented `os.walk` behavior
of yielding nothing there, the result is the empty mapping. -/
theorem find_duplicate_files_invalid_root (fs : FS) (base : String)
    (hdir : fs.isDir base = false)
    (hwalk : ∀ q, fs.isDir q = false → fs.walk q = []) :
    find_duplicate_files fs base = [] := by
  have h1 : walkFiles fs base = [] := by
    unfold walkFiles
    rw [hwalk base hdir]
    rfl
  unfold find_duplicate_files
  rw [h1]
  rfl

/-- C2: on an input whose stripped path is not a directory, `main` prints
the error and stops: no directory is walked and no report file is written,
not even a partial one. -/
theorem main_invalid_dir (fs : FS) (input : String)
    (hv : fs.isDir (pyStrip input) = false) :
    main fs input = [Event.printMsg "Ruta no válida."] ∧
    ∀ e ∈ main fs input,
      (∀ q, e ≠ Event.walkDir q) ∧ ∀ n rows, e ≠ Event.writeFile n rows := by
  have hmain : main fs input = [Event.printMsg "Ruta no válida."] := by
    simp [main, hv]
  refine ⟨hmain, ?_⟩
  intro e he
  rw [hmain, List.mem_singleton] at he
  subst he
  exact ⟨fun q => by simp, fun n rows => by simp⟩

/-! ## Space estimation -/

theorem foldl_getSize (fs : FS) :
    ∀ (L : List String) (t0 : Nat),
      L.foldl (fun s p =>
          match fs.getSize p with
          | some n => s + n
          | none => s) t0
        = t0 + (L.map (fun p => (fs.getSize p).getD 0)).sum := by
  intro L
  induction L with
  | nil => intro t0; simp
  | cons p L ihL =>
      intro t0
      rw [List.foldl_cons, ihL, List.map_cons, List.sum_cons]
      cases hp : fs.getSize p
      · simp
      · simp only [Option.getD_some]
        exact Nat.add_assoc _ _ _

theorem sum_map_getD_const (fs : FS) (s : Nat) :
    ∀ L : List String, (∀ p ∈ L, fs.getSize p = some s) →
      (L.map (fun p => (fs.getSize p).getD 0)).sum = L.length * s := by
  intro L
  induction L with
  | nil => intro _; simp
  | cons p L ihL =>
      intro hall
      rw [List.map_cons, List.sum_cons, hall p (List.mem_cons_self p L),
        ihL (fun q hq => hall q (List.mem_cons_of_mem p hq))]
      simp [Option.getD]
      ring

/-- C4: `calculate_reclaimable_space` sums, over all groups, the sizes of
all members except the first, a failed size query contributing zero without
aborting; a uniform group of `n` files of size `s` contributes
`(n - 1) * s`, and a heterogeneous group contributes the sum of all sizes
minus the size of the first member. -/
theorem calculate_reclaimable_space_spec (fs : FS)
    (dups : List (String × List String)) :
    calculate_reclaimable_space fs dups = spec_reclaimable fs dups ∧
    (∀ h ps s, (h, ps) ∈ dups → (∀ p ∈ ps, fs.getSize p = some s) →
        ((ps.drop 1).map (fun p => (fs.getSize p).getD 0)).sum
          = (ps.length - 1) * s) ∧
    (∀ h q ps, (h, q :: ps) ∈ dups →
        (((q :: ps).drop 1).map (fun p => (fs.getSize p).getD 0)).sum
          = ((q :: ps).map (fun p => (fs.getSize p).getD 0)).sum
              - (fs.getSize q).getD 0) := by
  refine ⟨?_, ?_, ?_⟩
  · suffices hgen : ∀ (D : List (String × List String)) (s0 : Nat),
        D.foldl (fun space g =>
            (g.2.drop 1).foldl (fun s p =>
              match fs.getSize p with
              | some n => s + n
              | none => s) space) s0
          = s0 + spec_reclaimable fs D by
      have hfin := hgen dups 0
      simpa [calculate_reclaimable_space] using hfin
    intro D
    induction D with
    | nil => intro s0; simp [spec_reclaimable]
    | cons g D ihD =>
        intro s0
        rw [List.foldl_cons, foldl_getSize, ihD]
        simp [spec_reclaimable]
        omega
  · intro h ps s _ hall
    cases ps with
    | nil => simp
    | cons q rest =>
        have hdrop : (q :: rest).drop 1 = rest := rfl
        rw [hdrop,
          sum_map_getD_const fs s rest
            (fun p hp => hall p (List.mem_cons_of_mem q hp))]
        simp
  · intro h q ps _
    have hdrop : (q :: ps).drop 1 = ps := rfl
    rw [hdrop, List.map_cons, List.sum_cons]
    omega

/-! ## Formatting -/

/-- C5: `format_size` renders the four reference values as specified, and
in general stops at the first unit of B, KB, MB, GB, TB whose scaled value
is below `1024`, rendering it with two decimal places. -/
theorem format_size_matches_spec :
    format_size 0 = some "0.00 B" ∧
    format_size 1024 = some "1.00 KB" ∧
    format_size 1536 = some "1.50 KB" ∧
    format_size 1048576 = some "1.00 MB" ∧
    ∀ b : Nat, format_size b = spec_format_size b := by
  refine ⟨by decide, by decide, by decide, by decide, ?_⟩
  intro b
  have hB : (" " ++ "B" : String) = " B" := by decide
  have hKB : (" " ++ "KB" : String) = " KB" := by decide
  have hMB : (" " ++ "MB" : String) = " MB" := by decide
  have hGB : (" " ++ "GB" : String) = " GB" := by decide
  have hTB : (" " ++ "TB" : String) = " TB" := by decide
  simp only [format_size, format_units, format_size_go, spec_format_size]
  norm_num [String.append_assoc, hB, hKB, hMB, hGB, hTB]

/-- C1 fails on the code: at the TB threshold `1024 ^ 5` the loop divides
once more, runs out of units and falls off the end, so `format_size`
returns `None` (printed as the string `None`), not a TB rendering; one byte
below the threshold it still renders TB. -/
theorem format_size_at_tb_threshold :
    format_size (1024 ^ 5) = none ∧
    pyShow (format_size (1024 ^ 5)) = "None" ∧
    format_size (1024 ^ 5 - 1) = some "1024.00 TB" := by
  refine ⟨by decide, by decide, by decide⟩

/-- The general form of the failure: every byte count at or beyond
`1024 ^ 5` makes `format_size` return `None`. -/
theorem format_size_ge_tb_threshold_none (b : Nat) (hb : 1024 ^ 5 ≤ b) :
    format_size b = none := by
  have he : (1024 : Nat) ^ 5 = 1125899906842624 := by norm_num
  rw [he] at hb
  simp only [format_size, format_units, format_size_go]
  rw [if_neg (by omega), if_neg (by omega), if_neg (by omega),
    if_neg (by omega), if_neg (by omega)]

theorem format_size_ge_tb_threshold_none_witness :
    format_size 1125899906842624 = none :=
  format_size_ge_tb_threshold_none 1125899906842624 (by norm_num)

/-! ## The report -/

/-- C6: the report is a full overwrite of the named file (the default name
being `duplicados.csv`), its first row is the header, and it is followed by
exactly one row per `(digest, path)` pair, the canonical first member
included; an empty mapping yields a header-only report. -/
theorem save_results_to_csv_spec (store : String → Option (List (List String)))
    (fn : String) (dups : List (String × List String)) :
    save_results_to_csv store dups fn fn = some (csvRows dups) ∧
    (∀ prior,
      save_results_to_csv (fun n => if n = fn then prior else store n) dups fn fn
        = some (csvRows dups)) ∧
    (csvRows dups).head? = some ["Hash", "Ruta de archivo duplicado"] ∧
    (csvRows dups).tail = dups.flatMap (fun g => g.2.map (fun p => [g.1, p])) ∧
    csvRows ([] : List (String × List String))
      = [["Hash", "Ruta de archivo duplicado"]] ∧
    default_csv_filename = "duplicados.csv" := by
  refine ⟨by simp [save_results_to_csv], fun prior => by simp [save_results_to_csv],
    rfl, rfl, rfl, rfl⟩

/-! ## Witnesses: the theorems above instantiated at concrete inputs -/

set_option maxRecDepth 40000

theorem find_duplicate_files_invariants_witness :
    (2 ≤ (sha256hex [65], ["/r/a", "/r/b"]).2.length ∧
      ∀ p ∈ (sha256hex [65], ["/r/a", "/r/b"]).2,
        compute_file_hash fsT p = some (sha256hex [65], ["/r/a", "/r/b"]).1) ∧
    (∃ g ∈ find_duplicate_files fsT "/r", "/r/a" ∈ g.2 ∧ "/r/b" ∈ g.2 ∧
      ∀ g' ∈ find_duplicate_files fsT "/r",
        ("/r/a" ∈ g'.2 ∨ "/r/b" ∈ g'.2) → g' = g) ∧
    ¬("/r/a" ∈ (sha256hex [65], ["/r/a", "/r/b"]).2 ∧
      "/r/c" ∈ (sha256hex [65], ["/r/a", "/r/b"]).2) :=
  ⟨(find_duplicate_files_invariants fsT "/r").1
      (sha256hex [65], ["/r/a", "/r/b"]) (by decide),
   (find_duplicate_files_invariants fsT "/r").2.1 "/r/a" "/r/b" [65]
      (by decide) (by decide) (by decide) (by decide) (by decide),
   (find_duplicate_files_invariants fsT "/r").2.2
      (sha256hex [65], ["/r/a", "/r/b"]) (by decide) "/r/a" "/r/c" [65] [66]
      (by decide) (by decide) (by decide)⟩

theorem unreadable_file_excluded_witness :
    compute_file_hash fsT "/r/d" = none ∧
    ∀ g ∈ find_duplicate_files fsT "/r", "/r/d" ∉ g.2 :=
  unreadable_file_excluded fsT "/r" "/r/d" (by decide)

theorem rerun_groupings_stable_witness :
    (∃ g ∈ find_duplicate_files fsT "/r", g.1 = sha256hex [65] ∧ "/r/a" ∈ g.2) ↔
    (∃ g ∈ find_duplicate_files fsT2 "/r", g.1 = sha256hex [65] ∧ "/r/a" ∈ g.2) :=
  rerun_groupings_stable fsT fsT2 "/r" (sha256hex [65]) "/r/a" rfl (by decide)

theorem find_duplicate_files_invalid_root_witness :
    find_duplicate_files fsEmpty "/nope" = [] :=
  find_duplicate_files_invalid_root fsEmpty "/nope" rfl (fun _ _ => rfl)

theorem main_invalid_dir_witness :
    main fsT "/missing" = [Event.printMsg "Ruta no válida."] ∧
    ∀ e ∈ main fsT "/missing",
      (∀ q, e ≠ Event.walkDir q) ∧ ∀ n rows, e ≠ Event.writeFile n rows :=
  main_invalid_dir fsT "/missing" (by decide)

theorem calculate_reclaimable_space_spec_witness :
    calculate_reclaimable_space fsT dupsW = spec_reclaimable fsT dupsW ∧
    ((["/r/a", "/r/b"].drop 1).map (fun p => (fsT.getSize p).getD 0)).sum
        = (["/r/a", "/r/b"].length - 1) * 5 ∧
    ((("/r/a" :: ["/r/b"]).drop 1).map (fun p => (fsT.getSize p).getD 0)).sum
      = (("/r/a" :: ["/r/b"]).map (fun p => (fsT.getSize p).getD 0)).sum
          - (fsT.getSize "/r/a").getD 0 :=
  ⟨(calculate_reclaimable_space_spec fsT dupsW).1,
   (calculate_reclaimable_space_spec fsT dupsW).2.1 "k" ["/r/a", "/r/b"] 5
      (by decide) (by decide),
   (calculate_reclaimable_space_spec fsT dupsW).2.2 "k" "/r/a" ["/r/b"]
      (by decide)⟩

end DupDetector
